import Mathlib

/-!
Shallow embedding of `src/modules/tools/src/compressor.rs` (the `rcomp`
compression tool).  Bytes are modelled as `Nat`, byte streams as `List Nat`,
filesystem trees as an inductive type whose directory listings keep the order
the operating system reports.  The gzip codec (crate `flate2`) and the tar
container (crate `tar`) are modelled by their documented library contracts:
the gzip model tags the payload with the level and recovers it exactly, and
the tar model is an injective serialisation of (path, contents) records with
a parser, matching the spec's §6 note that the exact on-wire layout is not a
compatibility requirement as long as build and extract are mutually inverse.
-/

namespace Rcomp

/-- Model of the `flate2` gzip encoder (`GzEncoder::new(_, Compression::new(level))`
followed by writing the whole input): the compressed stream is a magic header,
the level byte, then the payload.  The level changes the stream but, per the
flate2 contract, never what the decoder recovers. -/
def gzCompress (level : Nat) (data : List Nat) : List Nat :=
  31 :: 139 :: level % 256 :: data

/-- Model of the `flate2` gzip decoder (`GzDecoder`): recovers the payload of
any stream produced by `gzCompress` at any level, and fails (`CorruptStream`)
on a stream that does not carry the gzip header. -/
def gzDecompress : List Nat → Option (List Nat)
  | 31 :: 139 :: _ :: rest => some rest
  | _ => none

/-- Path components as the `tar` crate's `unpack_in` sees them
(`std::path::Component`): root, current dir, parent dir, or a plain name. -/
inductive PathComp where
  | rootDir
  | curDir
  | parentDir
  | normal (s : String)
deriving DecidableEq, Repr

/-- One tar entry: the stored path and the file bytes, the (relative-path,
contents) record of the container format. -/
structure TarEntry where
  path : List PathComp
  contents : List Nat
deriving DecidableEq, Repr

/-- Byte encoding of a string for the container model: length, then the
character codes. -/
def encString (s : String) : List Nat :=
  (s.data.map Char.toNat).length :: s.data.map Char.toNat

/-- Byte encoding of one path component: a tag, then the name for `normal`. -/
def encComp : PathComp → List Nat
  | .rootDir => [0]
  | .curDir => [1]
  | .parentDir => [2]
  | .normal s => 3 :: encString s

/-- Byte encoding of a stored path: component count, then components. -/
def encPath (p : List PathComp) : List Nat :=
  p.length :: (p.map encComp).flatten

/-- Byte encoding of one tar entry: path, then contents length, then contents. -/
def encEntry (e : TarEntry) : List Nat :=
  encPath e.path ++ e.contents.length :: e.contents

/-- Model of `tar::Builder` serialisation: entry count, then the entries in
append order. -/
def tarSerialize (es : List TarEntry) : List Nat :=
  es.length :: (es.map encEntry).flatten

/-- Reads exactly `n` bytes from the front of a stream, or fails. -/
def readN (n : Nat) (l : List Nat) : Option (List Nat × List Nat) :=
  if n ≤ l.length then some (l.take n, l.drop n) else none

/-- Parses one path component off the front of a stream. -/
def parseComp : List Nat → Option (PathComp × List Nat)
  | 0 :: r => some (.rootDir, r)
  | 1 :: r => some (.curDir, r)
  | 2 :: r => some (.parentDir, r)
  | 3 :: n :: r =>
    (readN n r).map fun cr => (.normal (String.mk (cr.1.map Char.ofNat)), cr.2)
  | _ => none

/-- Parses exactly `k` path components off the front of a stream. -/
def parseComps : Nat → List Nat → Option (List PathComp × List Nat)
  | 0, l => some ([], l)
  | k + 1, l =>
    match parseComp l with
    | none => none
    | some (c, r) =>
      match parseComps k r with
      | none => none
      | some (cs, r2) => some (c :: cs, r2)

/-- Parses a stored path (component count, then components). -/
def parsePath : List Nat → Option (List PathComp × List Nat)
  | n :: r => parseComps n r
  | [] => none

/-- Parses one tar entry (path, then length-prefixed contents). -/
def parseEntry (l : List Nat) : Option (TarEntry × List Nat) :=
  match parsePath l with
  | none => none
  | some (p, r) =>
    match r with
    | len :: r2 => (readN len r2).map fun cr => (⟨p, cr.1⟩, cr.2)
    | [] => none

/-- Parses exactly `k` tar entries off the front of a stream. -/
def parseEntriesN : Nat → List Nat → Option (List TarEntry × List Nat)
  | 0, l => some ([], l)
  | k + 1, l =>
    match parseEntry l with
    | none => none
    | some (e, r) =>
      match parseEntriesN k r with
      | none => none
      | some (es, r2) => some (e :: es, r2)

/-- Model of `tar::Archive` reading a whole container stream: the entry count,
then that many entries, with nothing left over; anything else is corrupt. -/
def tarParse (l : List Nat) : Option (List TarEntry) :=
  match l with
  | n :: r =>
    match parseEntriesN n r with
    | some (es, []) => some es
    | _ => none
  | [] => none

/-- Model of `str::ends_with` on character lists. -/
def listEndsWith (l t : List Char) : Bool :=
  l.drop (l.length - t.length) == t

/-- Model of Rust `str::ends_with` on the model's strings. -/
def strEnds (s t : String) : Bool :=
  listEndsWith s.data t.data

/-- Embedding of the suffix test of `decompress_file` (compressor.rs line 188):
`input.ends_with(".tar.gz") || input.ends_with(".tgz")`.  A total pure function
of the name: `true` selects the container branch, every other name falls back
to the plain-file branch. -/
def detectContainer (input : String) : Bool :=
  strEnds input ".tar.gz" || strEnds input ".tgz"

/-- Does a stored path contain a `..` component anywhere? -/
def hasParentDir : List PathComp → Bool
  | [] => false
  | .parentDir :: _ => true
  | _ :: r => hasParentDir r

/-- The plain-name components of a stored path, in order (what `unpack_in`
pushes onto the destination: root, current-dir and prefix components are
dropped). -/
def entryNormals : List PathComp → List String
  | [] => []
  | .normal s :: r => s :: entryNormals r
  | _ :: r => entryNormals r

/-- Model of `tar` `Entry::unpack_in` path handling: a path with any `..`
component is skipped (the crate returns `Ok(false)`, no error), root and
current-dir components are ignored, and an entry whose path reduces to nothing
is skipped too; otherwise the entry is written at the remaining plain names
under the destination. -/
def entryDest (p : List PathComp) : Option (List String) :=
  if hasParentDir p then none
  else
    match entryNormals p with
    | [] => none
    | ns => some ns

/-- Model of `tar::Archive::unpack`: the entries written, in stored order,
as (relative destination path, contents); skipped entries write nothing. -/
def unpackAll (es : List TarEntry) : List (List String × List Nat) :=
  es.filterMap fun e => (entryDest e.path).map fun d => (d, e.contents)

mutual
/-- Model of a filesystem node.  `file` is a readable regular file,
`unreadableFile` a regular file whose open fails (e.g. no read permission),
`device` a special file that is neither regular file nor directory but can be
opened (e.g. a character device), `dir` a directory whose entry list keeps the
order the operating system reports, `symlinkFile` a symlink resolving to a
regular file with the given bytes, `symlinkDir` a symlink resolving to a
directory, `symlinkBroken` a dangling symlink, and `inaccessible` a node whose
traversal errors (walkdir yields `Err`). -/
inductive FsTree where
  | file (contents : List Nat)
  | unreadableFile
  | device (contents : List Nat)
  | dir (entries : FsEntries)
  | symlinkFile (contents : List Nat)
  | symlinkDir
  | symlinkBroken
  | inaccessible

/-- A directory listing: names paired with subtrees, in listing order. -/
inductive FsEntries where
  | nil
  | cons (name : String) (tree : FsTree) (rest : FsEntries)
end

/-- Model of `std::path::Path::is_file`: a metadata query that follows
symlinks, so a symlink to a regular file counts, and permission to read the
file is not required. -/
def isFile : FsTree → Bool
  | .file _ => true
  | .unreadableFile => true
  | .symlinkFile _ => true
  | _ => false

/-- Model of `std::path::Path::is_dir` (compressor.rs line 95): follows
symlinks; false for a nonexistent or special path. -/
def isDir : FsTree → Bool
  | .dir _ => true
  | .symlinkDir => true
  | _ => false

/-- Model of `File::open` followed by reading every byte: succeeds on regular
files, on symlinks to them, and on openable special files; fails on an
unreadable file, a broken symlink, a directory read, or an inaccessible node. -/
def readFile : FsTree → Option (List Nat)
  | .file c => some c
  | .symlinkFile c => some c
  | .device c => some c
  | _ => none

mutual
/-- Model of `WalkDir::new(input)` with default options: the root first, then
each directory's children depth-first in listing order; no `sort_by` is
applied, symlinks are not followed (a symlink to a directory is yielded but
not descended into).  Paths are relative to the walk root, which is what
`path.strip_prefix(input)` yields in `compress_dir`. -/
def walkTree : FsTree → List (List String × FsTree)
  | .dir es => ([], FsTree.dir es) :: walkEntries es
  | t => [([], t)]

/-- Walks a directory listing in order, prefixing each child's results with
its name. -/
def walkEntries : FsEntries → List (List String × FsTree)
  | .nil => []
  | .cons n t r => (walkTree t).map (fun pt => (n :: pt.1, pt.2)) ++ walkEntries r
end

/-- Embedding of one iteration of the `compress_dir` loop (compressor.rs
lines 151-156) on a walk item: `none` means the iteration fails the whole
invocation (an accepted file whose `File::open` fails), `some none` means the
item contributes nothing (a walkdir `Err` dropped by `filter_map(|e| e.ok())`,
or a path with `is_file()` false), and `some (some e)` appends entry `e`. -/
def entryAction (p : List String) (t : FsTree) : Option (Option TarEntry) :=
  match t with
  | .inaccessible => some none
  | t =>
    if isFile t then
      match readFile t with
      | some c => some (some ⟨p.map PathComp.normal, c⟩)
      | none => none
    else some none

/-- Embedding of the `compress_dir` loop over the whole walk: the appended
tar entries in walk order, or `none` when some accepted file cannot be
opened (the error propagates, no retry). -/
def archiveEntries : List (List String × FsTree) → Option (List TarEntry)
  | [] => some []
  | (p, t) :: r =>
    match entryAction p t with
    | none => none
    | some none => archiveEntries r
    | some (some e) => (archiveEntries r).map (e :: ·)

/-- Embedding of `compress_dir` (compressor.rs lines 147-167): build the tar
archive from the walk, then gzip the whole archive byte stream at the given
level into the output file's contents. -/
def compressDir (root : FsTree) (level : Nat) : Option (List Nat) :=
  (archiveEntries (walkTree root)).map fun es => gzCompress level (tarSerialize es)

/-- Lookup of the input path on the filesystem: `none` models a path that
does not exist. -/
def openPath : Option FsTree → Option (List Nat)
  | some t => readFile t
  | none => none

/-- Model of `Path::is_dir` applied to an input path that may not exist. -/
def pathIsDir : Option FsTree → Bool
  | some t => isDir t
  | none => false

/-- Embedding of `compress_file` (compressor.rs lines 110-139): open the
input (propagating the error when that fails), then write the gzip stream of
its bytes as the output file. -/
def compressFile (input : Option FsTree) (level : Nat) : Option (List Nat) :=
  (openPath input).map (gzCompress level)

/-- The two strategies `compress_path` can pick. -/
inductive Strategy where
  | dirStrategy
  | fileStrategy
deriving DecidableEq, Repr

/-- Embedding of the classification branch of `compress_path` (compressor.rs
lines 95-101): `input_path.is_dir()` selects tar+gz, everything else —
including a nonexistent path and a special file — selects plain gz.  The
query is read-only; no failure happens at classification itself. -/
def classify (input : Option FsTree) : Strategy :=
  if pathIsDir input then .dirStrategy else .fileStrategy

/-- Embedding of `compress_path` (compressor.rs lines 91-102). -/
def compressPath (input : Option FsTree) (level : Nat) : Option (List Nat) :=
  match classify input with
  | .dirStrategy =>
    match input with
    | some t => compressDir t level
    | none => none
  | .fileStrategy => compressFile input level

/-- Result of one `decompress_file` invocation: whether it returned `Ok`,
which output artifacts were created (the destination directory of the
container branch, created by `fs::create_dir_all` before any compressed byte
is decoded; the output file of the plain branch, created — truncating any
existing file — by `File::create` before the stream is read), the files
written under the destination directory, and the bytes written to the plain
output file. -/
structure DecompResult where
  ok : Bool
  dirCreated : Bool
  fileCreated : Bool
  extracted : List (List String × List Nat)
  plainBytes : List Nat
deriving DecidableEq, Repr

/-- Embedding of `decompress_file` (compressor.rs lines 175-201).  `data` is
the contents of the input path (`none` when it does not exist, in which case
`File::open` fails before anything is created).  The container branch creates
the destination directory, then decodes and unpacks; the plain branch creates
the output file, then decodes into it.  A decode failure after creation
leaves the created artifact behind (the model records the partially decoded
plain output as empty, since its codec model fails atomically). -/
def decompressFile (input : String) (data : Option (List Nat)) : DecompResult :=
  match data with
  | none => ⟨false, false, false, [], []⟩
  | some bytes =>
    if detectContainer input then
      match gzDecompress bytes with
      | none => ⟨false, true, false, [], []⟩
      | some payload =>
        match tarParse payload with
        | none => ⟨false, true, false, [], []⟩
        | some entries => ⟨true, true, false, unpackAll entries, []⟩
    else
      match gzDecompress bytes with
      | none => ⟨false, false, true, [], []⟩
      | some payload => ⟨true, false, true, [], payload⟩

/-- Model of clap's decimal argument parsing: the digits of the string, or
`none` when the string is empty or holds a non-digit. -/
def parseDigits : List Char → Nat → Option Nat
  | [], acc => some acc
  | c :: r, acc =>
    if 48 ≤ c.toNat ∧ c.toNat ≤ 57 then parseDigits r (acc * 10 + (c.toNat - 48))
    else none

/-- Model of the `--level` argument parser of `main` (compressor.rs lines
33-40): `value_parser(1..=9)` parses the decimal value and accepts it only
inside [1,9]; anything else is a configuration error raised before any
compression code runs. -/
def parseLevelArg (s : String) : Option Nat :=
  match s.data with
  | [] => none
  | cs =>
    match parseDigits cs 0 with
    | some n => if 1 ≤ n ∧ n ≤ 9 then some n else none
    | none => none

/-- Outcome of the `compress` subcommand of `main`: a configuration error
from argument parsing (no compression code runs), or the result of
`compress_path` at the validated level. -/
inductive RunResult where
  | configError
  | ran (output : Option (List Nat))
deriving DecidableEq, Repr

/-- Embedding of the `compress` subcommand dispatch of `main` (compressor.rs
lines 13-73): the level argument is validated by clap before `compress_path`
is called with it. -/
def mainCompress (input : Option FsTree) (levelArg : String) : RunResult :=
  match parseLevelArg levelArg with
  | none => .configError
  | some level => .ran (compressPath input level)

mutual
/-- Is the tree built of regular readable files and directories only? -/
def clean : FsTree → Bool
  | .file _ => true
  | .dir es => cleanEntries es
  | _ => false

/-- Is every subtree of the listing clean? -/
def cleanEntries : FsEntries → Bool
  | .nil => true
  | .cons _ t r => clean t && cleanEntries r
end

mutual
/-- Specification-side traversal, written from the spec's words: the set of
(relative path, byte contents) pairs of a traversal of the tree restricted to
regular files, in listing order. -/
def specFilesTree : FsTree → List (List String × List Nat)
  | .file c => [([], c)]
  | .dir es => specFilesEntries es
  | _ => []

/-- Specification-side traversal of a directory listing. -/
def specFilesEntries : FsEntries → List (List String × List Nat)
  | .nil => []
  | .cons n t r =>
    (specFilesTree t).map (fun pc => (n :: pc.1, pc.2)) ++ specFilesEntries r
end

/-- The tar entries that archive a given list of (relative path, contents)
pairs of plain names. -/
def tarOf (l : List (List String × List Nat)) : List TarEntry :=
  l.map fun pc => ⟨pc.1.map PathComp.normal, pc.2⟩

/-- Strict lexicographic comparison of character lists by code point. -/
def charsLt : List Char → List Char → Bool
  | [], [] => false
  | [], _ :: _ => true
  | _ :: _, [] => false
  | a :: as, b :: bs =>
    if a.toNat < b.toNat then true
    else if b.toNat < a.toNat then false
    else charsLt as bs

/-- Strict lexicographic comparison of strings. -/
def strLtB (a b : String) : Bool :=
  charsLt a.data b.data

/-- Lexicographic order on relative paths, comparing names stringwise, as the
spec's per-directory lexical depth-first emission order would sort them. -/
def lexLeB : List String → List String → Bool
  | [], _ => true
  | _ :: _, [] => false
  | a :: as, b :: bs => if a = b then lexLeB as bs else strLtB a b

/-- Is a path list emitted in lexicographic order? -/
def lexOrderedB : List (List String) → Bool
  | [] => true
  | [_] => true
  | a :: b :: r => lexLeB a b && lexOrderedB (b :: r)

/-- The relative destination paths of a tar entry list, in emission order. -/
def emittedPaths (es : List TarEntry) : List (List String) :=
  es.map fun e => entryNormals e.path

/-- Concrete archive holding a `..` entry and an ordinary one, built by the
container serialiser but not by the program's own builder. -/
def evilEntries : List TarEntry :=
  [⟨[.parentDir, .normal "evil"], [9, 9]⟩, ⟨[.normal "ok"], [5]⟩]

/-- The gzip stream of the hostile archive. -/
def evilStream : List Nat :=
  gzCompress 6 (tarSerialize evilEntries)

/-- Concrete listing whose order is not lexical: `b.txt` listed before
`a.txt`. -/
def unsortedEntries : FsEntries :=
  .cons "b.txt" (.file [1]) (.cons "a.txt" (.file [2]) .nil)

/-- Concrete directory with the non-lexical listing. -/
def unsortedDir : FsTree :=
  .dir unsortedEntries

/-- Concrete directory holding one symlink that resolves to a regular file. -/
def symlinkOnlyDir : FsTree :=
  .dir (.cons "s" (.symlinkFile [7]) .nil)

/-- Concrete clean directory: `a/b.txt` and `c.txt`. -/
def demoDir : FsEntries :=
  .cons "a" (.dir (.cons "b.txt" (.file [10, 20]) .nil)) (.cons "c.txt" (.file []) .nil)

/-! ## Round trip of the codec models -/

/-- The gzip model decodes what it encoded, at every level. -/
theorem gzDecompress_gzCompress (level : Nat) (data : List Nat) :
    gzDecompress (gzCompress level data) = some data := rfl

/-- Reading exactly the length of the first part of a concatenation returns
that part and the rest. -/
theorem readN_exact (a b : List Nat) : readN a.length (a ++ b) = some (a, b) := by
  simp [readN, List.take_left, List.drop_left]

/-- Rebuilding a string from its character codes recovers it. -/
theorem string_code_roundtrip (s : String) :
    String.mk ((s.data.map Char.toNat).map Char.ofNat) = s := by
  cases s with
  | mk data =>
    simp only [List.map_map]
    congr 1
    refine List.map_congr_left ?_ |>.trans (List.map_id data)
    intro c _
    exact Char.ofNat_toNat c

/-- Parsing the encoding of one path component returns the component. -/
theorem parseComp_encComp (c : PathComp) (r : List Nat) :
    parseComp (encComp c ++ r) = some (c, r) := by
  cases c with
  | rootDir => rfl
  | curDir => rfl
  | parentDir => rfl
  | normal s =>
    show (readN (s.data.map Char.toNat).length (s.data.map Char.toNat ++ r)).map
        (fun cr => (PathComp.normal (String.mk (cr.1.map Char.ofNat)), cr.2))
      = some (.normal s, r)
    rw [readN_exact]
    have h := string_code_roundtrip s
    simp only [List.map_map] at h
    simp [h]

/-- Parsing back a concatenation of encoded components returns them all. -/
theorem parseComps_enc (p : List PathComp) (r : List Nat) :
    parseComps p.length ((p.map encComp).flatten ++ r) = some (p, r) := by
  induction p generalizing r with
  | nil => simp [parseComps]
  | cons c p ih =>
    simp only [List.map_cons, List.flatten_cons, List.length_cons, List.append_assoc]
    simp [parseComps, parseComp_encComp, ih]

/-- Parsing the encoding of one entry returns the entry. -/
theorem parseEntry_encEntry (e : TarEntry) (r : List Nat) :
    parseEntry (encEntry e ++ r) = some (e, r) := by
  obtain ⟨p, c⟩ := e
  show parseEntry ((encPath p ++ c.length :: c) ++ r) = some (⟨p, c⟩, r)
  have h1 : (encPath p ++ c.length :: c) ++ r
      = p.length :: ((p.map encComp).flatten ++ (c.length :: (c ++ r))) := by
    simp [encPath]
  rw [h1]
  simp [parseEntry, parsePath, parseComps_enc, readN_exact]

/-- Parsing back a concatenation of encoded entries returns them all. -/
theorem parseEntriesN_enc (es : List TarEntry) (r : List Nat) :
    parseEntriesN es.length ((es.map encEntry).flatten ++ r) = some (es, r) := by
  induction es generalizing r with
  | nil => simp [parseEntriesN]
  | cons e es ih =>
    simp only [List.map_cons, List.flatten_cons, List.length_cons, List.append_assoc]
    simp [parseEntriesN, parseEntry_encEntry, ih]

/-- The container model parses what it serialised: build and extract are
mutually inverse on the entry list. -/
theorem tarParse_tarSerialize (es : List TarEntry) :
    tarParse (tarSerialize es) = some es := by
  show tarParse (es.length :: (es.map encEntry).flatten) = some es
  have h := parseEntriesN_enc es []
  rw [List.append_nil] at h
  simp [tarParse, h]

/-! ## The archiving loop on walks -/

/-- A readable regular file is accepted and archived. -/
theorem entryAction_file (p : List String) (c : List Nat) :
    entryAction p (.file c) = some (some ⟨p.map PathComp.normal, c⟩) := rfl

/-- An accepted file whose open fails aborts the iteration. -/
theorem entryAction_unreadable (p : List String) :
    entryAction p .unreadableFile = none := rfl

/-- A special file is not `is_file` and is skipped. -/
theorem entryAction_device (p : List String) (c : List Nat) :
    entryAction p (.device c) = some none := rfl

/-- A directory is not `is_file` and is skipped. -/
theorem entryAction_dir (p : List String) (es : FsEntries) :
    entryAction p (.dir es) = some none := rfl

/-- A symlink resolving to a regular file passes `is_file` and is archived
with the target's bytes. -/
theorem entryAction_symlinkFile (p : List String) (c : List Nat) :
    entryAction p (.symlinkFile c) = some (some ⟨p.map PathComp.normal, c⟩) := rfl

/-- A symlink resolving to a directory is skipped. -/
theorem entryAction_symlinkDir (p : List String) :
    entryAction p .symlinkDir = some none := rfl

/-- A dangling symlink is not `is_file` and is skipped. -/
theorem entryAction_symlinkBroken (p : List String) :
    entryAction p .symlinkBroken = some none := rfl

/-- A traversal error is dropped by `filter_map(|e| e.ok())`. -/
theorem entryAction_err (p : List String) :
    entryAction p .inaccessible = some none := rfl

/-- The iteration outcome ignores the walk path except for the entry's
stored path, which gains the name in front. -/
theorem entryAction_cons (n : String) (p : List String) (t : FsTree) :
    entryAction (n :: p) t =
      (entryAction p t).map
        (Option.map fun e => ⟨PathComp.normal n :: e.path, e.contents⟩) := by
  cases t <;> rfl

/-- Unfolding of one step of the archiving loop. -/
theorem archiveEntries_cons (p : List String) (t : FsTree)
    (r : List (List String × FsTree)) :
    archiveEntries ((p, t) :: r) =
      match entryAction p t with
      | none => none
      | some none => archiveEntries r
      | some (some e) => (archiveEntries r).map (e :: ·) := rfl

/-- Archiving a concatenation of walks archives both parts in order. -/
theorem archiveEntries_append (l1 l2 : List (List String × FsTree)) :
    archiveEntries (l1 ++ l2) =
      (archiveEntries l1).bind fun a => (archiveEntries l2).map fun b => a ++ b := by
  induction l1 with
  | nil =>
    show archiveEntries l2 = (some []).bind fun a => (archiveEntries l2).map fun b => a ++ b
    cases h : archiveEntries l2 <;> simp [h]
  | cons pt l1 ih =>
    obtain ⟨p, t⟩ := pt
    rw [List.cons_append, archiveEntries_cons, archiveEntries_cons]
    cases h : entryAction p t with
    | none => rfl
    | some o =>
      cases o with
      | none => exact ih
      | some e =>
        show (archiveEntries (l1 ++ l2)).map (e :: ·) = _
        rw [ih]
        cases h1 : archiveEntries l1 <;> cases h2 : archiveEntries l2 <;> simp

/-- Archiving a walk whose paths gained a directory name in front produces
the same entries with that name in front of every stored path. -/
theorem archiveEntries_mapName (n : String) (l : List (List String × FsTree)) :
    archiveEntries (l.map fun pt => (n :: pt.1, pt.2)) =
      (archiveEntries l).map
        (List.map fun e => ⟨PathComp.normal n :: e.path, e.contents⟩) := by
  induction l with
  | nil => rfl
  | cons pt l ih =>
    obtain ⟨p, t⟩ := pt
    rw [List.map_cons, archiveEntries_cons, archiveEntries_cons, entryAction_cons]
    cases h : entryAction p t with
    | none => rfl
    | some o =>
      cases o with
      | none => exact ih
      | some e =>
        show (archiveEntries (l.map fun pt => (n :: pt.1, pt.2))).map _ = _
        rw [ih]
        cases h1 : archiveEntries l <;> simp

/-- Prefixing a name distributes from spec pairs to their tar entries. -/
theorem tarOf_mapName (n : String) (l : List (List String × List Nat)) :
    tarOf (l.map fun pc => (n :: pc.1, pc.2)) =
      (tarOf l).map fun e => ⟨PathComp.normal n :: e.path, e.contents⟩ := by
  simp [tarOf, List.map_map]

/-- Building tar entries distributes over concatenation. -/
theorem tarOf_append (a b : List (List String × List Nat)) :
    tarOf (a ++ b) = tarOf a ++ tarOf b := by
  simp [tarOf]

/-- Unfolding of a walk at a directory root. -/
theorem walkTree_dir (es : FsEntries) :
    walkTree (.dir es) = ([], FsTree.dir es) :: walkEntries es := rfl

/-- Unfolding of a walk of a listing. -/
theorem walkEntries_cons (n : String) (t : FsTree) (r : FsEntries) :
    walkEntries (.cons n t r) =
      (walkTree t).map (fun pt => (n :: pt.1, pt.2)) ++ walkEntries r := rfl

mutual
/-- Over a clean tree — regular readable files and directories only — the
archiving loop succeeds and emits exactly the specification-side traversal,
depth-first in listing order. -/
theorem archive_clean_tree :
    ∀ (t : FsTree), clean t = true →
      archiveEntries (walkTree t) = some (tarOf (specFilesTree t))
  | .file c, _ => rfl
  | .dir es, h => by
    have hh : cleanEntries es = true := by simpa [clean] using h
    have ih := archive_clean_entries es hh
    rw [walkTree_dir, archiveEntries_cons, entryAction_dir]
    exact ih
  | .unreadableFile, h => by simp [clean] at h
  | .device c, h => by simp [clean] at h
  | .symlinkFile c, h => by simp [clean] at h
  | .symlinkDir, h => by simp [clean] at h
  | .symlinkBroken, h => by simp [clean] at h
  | .inaccessible, h => by simp [clean] at h

/-- Over a clean listing the archiving loop emits exactly the
specification-side traversal of the listing, in order. -/
theorem archive_clean_entries :
    ∀ (es : FsEntries), cleanEntries es = true →
      archiveEntries (walkEntries es) = some (tarOf (specFilesEntries es))
  | .nil, _ => rfl
  | .cons n t r, h => by
    have h' : clean t = true ∧ cleanEntries r = true := by
      simpa [cleanEntries, Bool.and_eq_true] using h
    have iht := archive_clean_tree t h'.1
    have ihr := archive_clean_entries r h'.2
    rw [walkEntries_cons, archiveEntries_append, archiveEntries_mapName, iht, ihr]
    show some _ = some (tarOf (specFilesEntries (.cons n t r)))
    rw [show specFilesEntries (.cons n t r)
        = (specFilesTree t).map (fun pc => (n :: pc.1, pc.2)) ++ specFilesEntries r
      from rfl]
    rw [tarOf_append, tarOf_mapName]
end

/-! ## Extraction -/

/-- A stored path of plain names only has no parent-dir component. -/
theorem hasParentDir_map_normal (p : List String) :
    hasParentDir (p.map PathComp.normal) = false := by
  induction p with
  | nil => rfl
  | cons a as ih => simpa [hasParentDir] using ih

/-- The plain names of a stored path of plain names are the names themselves. -/
theorem entryNormals_map_normal (p : List String) :
    entryNormals (p.map PathComp.normal) = p := by
  induction p with
  | nil => rfl
  | cons a as ih => simpa [entryNormals] using ih

/-- A nonempty path of plain names unpacks at exactly those names. -/
theorem entryDest_map_normal (p : List String) (hp : p ≠ []) :
    entryDest (p.map PathComp.normal) = some p := by
  cases p with
  | nil => exact absurd rfl hp
  | cons a as =>
    have h1 : hasParentDir ((a :: as).map PathComp.normal) = false :=
      hasParentDir_map_normal _
    have h2 : entryNormals ((a :: as).map PathComp.normal) = a :: as :=
      entryNormals_map_normal _
    simp only [entryDest, h1, h2]
    simp

/-- An entry is written only with no parent-dir component in its path, at its
plain names, which are nonempty — never at or outside the destination root. -/
theorem entryDest_some (p : List PathComp) (d : List String)
    (h : entryDest p = some d) :
    hasParentDir p = false ∧ d = entryNormals p ∧ d ≠ [] := by
  unfold entryDest at h
  cases hp : hasParentDir p with
  | true => simp [hp] at h
  | false =>
    simp only [hp, Bool.false_eq_true, if_false] at h
    cases he : entryNormals p with
    | nil => rw [he] at h; cases h
    | cons a as =>
      rw [he] at h
      have hd := Option.some.inj h
      exact ⟨rfl, hd.symm, by rw [← hd]; simp⟩

/-- A path holding a parent-dir component is never written. -/
theorem entryDest_of_parentDir (p : List PathComp)
    (h : hasParentDir p = true) : entryDest p = none := by
  simp [entryDest, h]

/-- Unfolding of one step of unpacking. -/
theorem unpackAll_cons (e : TarEntry) (es : List TarEntry) :
    unpackAll (e :: es) =
      match entryDest e.path with
      | none => unpackAll es
      | some d => (d, e.contents) :: unpackAll es := by
  cases h : entryDest e.path <;> simp [unpackAll, List.filterMap_cons, h]

/-- Unpacking the archive of nonempty plain-name pairs writes exactly those
pairs, in order. -/
theorem unpackAll_tarOf (l : List (List String × List Nat))
    (h : ∀ pc ∈ l, pc.1 ≠ []) : unpackAll (tarOf l) = l := by
  induction l with
  | nil => rfl
  | cons pc r ih =>
    obtain ⟨p, c⟩ := pc
    have hp : p ≠ [] := h (p, c) (by simp)
    have ih' := ih fun q hq => h q (List.mem_cons_of_mem _ hq)
    show unpackAll (⟨p.map PathComp.normal, c⟩ :: tarOf r) = (p, c) :: r
    rw [unpackAll_cons]
    simp [entryDest_map_normal p hp, ih']

/-- Whatever unpacking writes comes from some entry whose path unpacked. -/
theorem unpackAll_mem (es : List TarEntry) (p : List String) (c : List Nat)
    (h : (p, c) ∈ unpackAll es) :
    ∃ e ∈ es, entryDest e.path = some p ∧ e.contents = c := by
  obtain ⟨e, he, hf⟩ := List.mem_filterMap.1 h
  obtain ⟨d, hd, hdc⟩ := Option.map_eq_some'.1 hf
  have h1 : d = p := congrArg Prod.fst hdc
  have h2 : e.contents = c := congrArg Prod.snd hdc
  exact ⟨e, he, h1 ▸ hd, h2⟩

/-- Every relative path of the specification-side traversal of a listing is
nonempty: it starts with the child's name. -/
theorem specEntries_nonempty :
    ∀ (es : FsEntries), ∀ pc ∈ specFilesEntries es, pc.1 ≠ []
  | .nil => by simp [specFilesEntries]
  | .cons n t r => by
    intro pc hpc
    rw [show specFilesEntries (.cons n t r)
        = (specFilesTree t).map (fun q => (n :: q.1, q.2)) ++ specFilesEntries r
      from rfl] at hpc
    rcases List.mem_append.1 hpc with h1 | h2
    · obtain ⟨q, _, rfl⟩ := List.mem_map.1 h1
      simp
    · exact specEntries_nonempty r pc h2

/-- The container branch of `decompress_file` on a well-formed stream:
returns `Ok` after creating the destination directory and writing the
unpacked entries. -/
theorem decompress_container (name : String) (hn : detectContainer name = true)
    (es : List TarEntry) (level : Nat) :
    decompressFile name (some (gzCompress level (tarSerialize es)))
      = ⟨true, true, false, unpackAll es, []⟩ := by
  simp [decompressFile, hn, gzDecompress_gzCompress, tarParse_tarSerialize]

/-- The plain branch of `decompress_file` on a well-formed stream: returns
`Ok` after creating the output file and writing the decoded payload. -/
theorem decompress_plain (name : String) (hn : detectContainer name = false)
    (payload : List Nat) (level : Nat) :
    decompressFile name (some (gzCompress level payload))
      = ⟨true, false, true, [], payload⟩ := by
  simp [decompressFile, hn, gzDecompress_gzCompress]

/-- Branch shape of `decompress_file` past a successful open: the destination
directory is created exactly on the container branch and the output file
exactly on the plain branch, whatever the stream holds. -/
theorem decompressFile_shape (input : String) (bytes : List Nat) :
    (decompressFile input (some bytes)).dirCreated = detectContainer input ∧
    (decompressFile input (some bytes)).fileCreated = !detectContainer input := by
  unfold decompressFile
  cases hd : detectContainer input
  · simp only [hd, Bool.false_eq_true, if_false]
    cases gzDecompress bytes <;> simp
  · simp only [hd, if_true]
    cases gzDecompress bytes with
    | none => simp
    | some payload => cases h2 : tarParse payload <;> simp [h2]

/-! ## The claims -/

/-- C1 (corrected): the claim says an archive entry with a `..` or absolute
path makes extraction fail with `PathTraversal`; on this code the tar
crate's `unpack_in` instead silently skips a `..` entry and strips root
components, the invocation succeeds, and the other entries extract — shown
here on a concrete hostile archive, where extraction returns `Ok` and writes
only the benign entry. -/
theorem c1_traversal_counterexample :
    (decompressFile "x.tar.gz" (some evilStream)).ok = true ∧
    (decompressFile "x.tar.gz" (some evilStream)).extracted = [(["ok"], [5])] := by
  decide

/-- C1 (amended): extraction of any archive — also one not produced by the
program's own builder — never writes an entry at or outside the destination
root: an entry whose stored path holds a `..` component is silently skipped
with nothing written for it, every written path is a nonempty list of plain
names under the destination, and the invocation succeeds rather than failing
with `PathTraversal`. -/
theorem c1_traversal_amended (es : List TarEntry) (level : Nat) :
    (decompressFile "a.tar.gz" (some (gzCompress level (tarSerialize es)))).ok
      = true ∧
    (decompressFile "a.tar.gz" (some (gzCompress level (tarSerialize es)))).extracted
      = unpackAll es ∧
    (∀ e ∈ es, hasParentDir e.path = true → entryDest e.path = none) ∧
    (∀ p c, (p, c) ∈ unpackAll es →
      p ≠ [] ∧
        ∃ e ∈ es, hasParentDir e.path = false ∧
          entryNormals e.path = p ∧ e.contents = c) := by
  have hc := decompress_container "a.tar.gz" (by decide) es level
  refine ⟨by rw [hc], by rw [hc], ?_, ?_⟩
  · intro e _ hp
    exact entryDest_of_parentDir _ hp
  · intro p c hm
    obtain ⟨e, he, hd, hcnt⟩ := unpackAll_mem es p c hm
    obtain ⟨h1, h2, h3⟩ := entryDest_some _ _ hd
    exact ⟨h3, e, he, h1, h2.symm, hcnt⟩

/-- C2 (confirmed): compressing a regular file at any level in [1,9] and
decompressing the result through the plain branch reproduces the file's
bytes exactly; the level never affects decodability. -/
theorem c2_roundtrip_file (data : List Nat) (level : Nat)
    (h : 1 ≤ level ∧ level ≤ 9) :
    ∃ stream, compressFile (some (.file data)) level = some stream ∧
      (decompressFile "out.gz" (some stream)).ok = true ∧
      (decompressFile "out.gz" (some stream)).plainBytes = data := by
  refine ⟨gzCompress level data, rfl, ?_, ?_⟩
  · rw [decompress_plain "out.gz" (by decide) data level]
  · rw [decompress_plain "out.gz" (by decide) data level]

/-- Witness for C2 at a concrete file and the extreme level 9. -/
theorem c2_roundtrip_file_witness :
    (1 ≤ 9 ∧ 9 ≤ 9) ∧
    ∃ stream, compressFile (some (.file [3, 1, 4])) 9 = some stream ∧
      (decompressFile "out.gz" (some stream)).ok = true ∧
      (decompressFile "out.gz" (some stream)).plainBytes = [3, 1, 4] :=
  ⟨by decide, c2_roundtrip_file [3, 1, 4] 9 (by decide)⟩

/-- C3 (confirmed): compressing a directory of regular readable files and
extracting the result reproduces exactly the (relative path, contents)
pairs of the traversal restricted to regular files — nothing missing,
nothing spurious. -/
theorem c3_roundtrip_dir (es : FsEntries) (level : Nat)
    (h : cleanEntries es = true) :
    ∃ stream, compressPath (some (.dir es)) level = some stream ∧
      (decompressFile "d.tar.gz" (some stream)).ok = true ∧
      (decompressFile "d.tar.gz" (some stream)).extracted = specFilesEntries es ∧
      ∀ pc : List String × List Nat,
        pc ∈ (decompressFile "d.tar.gz" (some stream)).extracted
          ↔ pc ∈ specFilesEntries es := by
  have harch : archiveEntries (walkTree (.dir es))
      = some (tarOf (specFilesEntries es)) :=
    archive_clean_tree (.dir es) (by simpa [clean] using h)
  have hcomp : compressPath (some (.dir es)) level
      = some (gzCompress level (tarSerialize (tarOf (specFilesEntries es)))) := by
    show (archiveEntries (walkTree (.dir es))).map
        (fun es' => gzCompress level (tarSerialize es')) = _
    rw [harch]
    rfl
  have hdec := decompress_container "d.tar.gz" (by decide)
    (tarOf (specFilesEntries es)) level
  have hunp : unpackAll (tarOf (specFilesEntries es)) = specFilesEntries es :=
    unpackAll_tarOf _ (specEntries_nonempty es)
  refine ⟨_, hcomp, ?_, ?_, ?_⟩
  · rw [hdec]
  · rw [hdec]; exact hunp
  · intro pc
    rw [hdec]
    show pc ∈ unpackAll (tarOf (specFilesEntries es)) ↔ _
    rw [hunp]

/-- Witness for C3 at a concrete two-level directory. -/
theorem c3_roundtrip_dir_witness :
    cleanEntries demoDir = true ∧
    ∃ stream, compressPath (some (.dir demoDir)) 6 = some stream ∧
      (decompressFile "d.tar.gz" (some stream)).ok = true ∧
      (decompressFile "d.tar.gz" (some stream)).extracted
        = specFilesEntries demoDir ∧
      ∀ pc : List String × List Nat,
        pc ∈ (decompressFile "d.tar.gz" (some stream)).extracted
          ↔ pc ∈ specFilesEntries demoDir :=
  ⟨by decide, c3_roundtrip_dir demoDir 6 (by decide)⟩

/-- C4 (corrected): the claim says a path that is neither regular file nor
directory fails with `Unsupported`; on this code a special device file is
classified `File` by the `is_dir` test and compression succeeds on it —
there is no `Unsupported` failure anywhere. -/
theorem c4_classify_counterexample :
    classify (some (.device [])) = .fileStrategy ∧
    compressPath (some (.device [])) 6 = some (gzCompress 6 []) := by
  decide

/-- C4 (amended): classification is a read-only `is_dir` query that never
fails: it answers `Directory` exactly for a directory (following symlinks)
and `File` for every other path, including a nonexistent one and a special
file; a nonexistent path then fails when the file is opened, while an
openable special file is compressed as a plain file. -/
theorem c4_classify_amended (input : Option FsTree) (level : Nat) :
    (classify input = .dirStrategy ↔
      (∃ es, input = some (.dir es)) ∨ input = some .symlinkDir) ∧
    classify none = .fileStrategy ∧
    compressPath none level = none ∧
    (∀ d, classify (some (.device d)) = .fileStrategy) ∧
    (∀ d, compressPath (some (.device d)) level = some (gzCompress level d)) ∧
    (∀ c, classify (some (.file c)) = .fileStrategy) ∧
    (∀ es, classify (some (.dir es)) = .dirStrategy) := by
  refine ⟨⟨?_, ?_⟩, rfl, rfl, fun d => rfl, fun d => rfl, fun c => rfl,
    fun es => rfl⟩
  · intro h
    cases input with
    | none => exact Strategy.noConfusion h
    | some t =>
      cases t with
      | dir es => exact Or.inl ⟨es, rfl⟩
      | symlinkDir => exact Or.inr rfl
      | file c => exact Strategy.noConfusion h
      | unreadableFile => exact Strategy.noConfusion h
      | device c => exact Strategy.noConfusion h
      | symlinkFile c => exact Strategy.noConfusion h
      | symlinkBroken => exact Strategy.noConfusion h
      | inaccessible => exact Strategy.noConfusion h
  · rintro (⟨es, rfl⟩ | rfl) <;> rfl

/-- C5 (corrected): the claim says entries are emitted lexically per
directory; on this code the walker applies no sorting, so a directory whose
listing reports `b.txt` before `a.txt` is archived in that order, which is
not lexicographic. -/
theorem c5_order_counterexample :
    archiveEntries (walkTree unsortedDir) =
      some [⟨[.normal "b.txt"], [1]⟩, ⟨[.normal "a.txt"], [2]⟩] ∧
    lexOrderedB
      (emittedPaths [⟨[.normal "b.txt"], [1]⟩, ⟨[.normal "a.txt"], [2]⟩])
      = false := by
  decide

/-- C5 (amended): over a clean tree the entries are emitted depth-first in
the underlying directory listing order — not sorted — so the archive bytes
are a function of the listed tree: two runs produce byte-identical archives
exactly when the filesystem reports the same listing. -/
theorem c5_order_amended (es : FsEntries) (level : Nat)
    (h : cleanEntries es = true) :
    archiveEntries (walkTree (.dir es)) = some (tarOf (specFilesEntries es)) ∧
    compressDir (.dir es) level =
      some (gzCompress level (tarSerialize (tarOf (specFilesEntries es)))) := by
  have harch : archiveEntries (walkTree (.dir es))
      = some (tarOf (specFilesEntries es)) :=
    archive_clean_tree (.dir es) (by simpa [clean] using h)
  refine ⟨harch, ?_⟩
  show (archiveEntries (walkTree (.dir es))).map
      (fun es' => gzCompress level (tarSerialize es')) = _
  rw [harch]
  rfl

/-- Witness for the amended C5 at the concrete non-lexical listing. -/
theorem c5_order_amended_witness :
    cleanEntries unsortedEntries = true ∧
    (archiveEntries (walkTree (.dir unsortedEntries)) =
        some (tarOf (specFilesEntries unsortedEntries)) ∧
      compressDir (.dir unsortedEntries) 3 =
        some (gzCompress 3 (tarSerialize (tarOf (specFilesEntries unsortedEntries))))) :=
  ⟨by decide, c5_order_amended unsortedEntries 3 (by decide)⟩

/-- C6 (confirmed): format detection is a pure total function of the file
name — the suffix test of line 188 — and the decompression path branches on
it alone: a container-suffixed name creates the destination directory, every
other name creates the single output file; `x.tar.gz` and `x.gz` land on
opposite branches. -/
theorem c6_detect_total (input : String) (bytes : List Nat) :
    (detectContainer input = (strEnds input ".tar.gz" || strEnds input ".tgz")) ∧
    ((decompressFile input (some bytes)).dirCreated = detectContainer input) ∧
    ((decompressFile input (some bytes)).fileCreated = !detectContainer input) ∧
    detectContainer "x.tar.gz" = true ∧ detectContainer "x.gz" = false :=
  ⟨rfl, (decompressFile_shape input bytes).1, (decompressFile_shape input bytes).2,
    by decide, by decide⟩

/-- C7 (corrected): the claim says every symlink is silently skipped; on
this code `path.is_file()` follows symlinks, so a symlink resolving to a
regular file is accepted and archived with the target's bytes — a directory
holding only such a symlink archives one entry, not zero. -/
theorem c7_skip_counterexample :
    archiveEntries (walkTree symlinkOnlyDir) = some [⟨[.normal "s"], [7]⟩] ∧
    archiveEntries (walkTree symlinkOnlyDir) ≠ some [] := by
  decide

/-- C7 (amended): during archiving, directories, symlinks to directories,
dangling symlinks and traversal errors are silently skipped and the
invocation still succeeds; a symlink resolving to a regular file is accepted
and archived; an accepted file whose open fails aborts the whole invocation
with an error, with no retry. -/
theorem c7_skip_amended (p : List String) (es : FsEntries) (c : List Nat) :
    entryAction p (.dir es) = some none ∧
    entryAction p .symlinkDir = some none ∧
    entryAction p .symlinkBroken = some none ∧
    entryAction p .inaccessible = some none ∧
    entryAction p (.symlinkFile c) = some (some ⟨p.map PathComp.normal, c⟩) ∧
    entryAction p .unreadableFile = none ∧
    (∀ l r, archiveEntries (l ++ (p, FsTree.unreadableFile) :: r) = none) ∧
    (∀ l : List (List String × FsTree),
      (∀ q u, (q, u) ∈ l → u ≠ FsTree.unreadableFile) →
        ∃ out, archiveEntries l = some out) := by
  refine ⟨rfl, rfl, rfl, rfl, rfl, rfl, ?_, ?_⟩
  · intro l r
    rw [archiveEntries_append]
    rw [show archiveEntries ((p, FsTree.unreadableFile) :: r) = none from by
      rw [archiveEntries_cons, entryAction_unreadable]]
    cases archiveEntries l <;> rfl
  · intro l hl
    induction l with
    | nil => exact ⟨[], rfl⟩
    | cons qt l ih =>
      obtain ⟨q, u⟩ := qt
      have hu : u ≠ FsTree.unreadableFile := hl q u (by simp)
      obtain ⟨out, hout⟩ := ih fun q' u' hq' => hl q' u' (List.mem_cons_of_mem _ hq')
      rw [archiveEntries_cons]
      cases ha : entryAction q u with
      | none =>
        exfalso
        cases u with
        | unreadableFile => exact hu rfl
        | file c2 => exact Option.noConfusion ha
        | device c2 => exact Option.noConfusion ha
        | dir es2 => exact Option.noConfusion ha
        | symlinkFile c2 => exact Option.noConfusion ha
        | symlinkDir => exact Option.noConfusion ha
        | symlinkBroken => exact Option.noConfusion ha
        | inaccessible => exact Option.noConfusion ha
      | some o =>
        cases o with
        | none => exact ⟨out, hout⟩
        | some e => exact ⟨e :: out, by rw [hout]; rfl⟩

/-- C8 (confirmed): the compression level reaches a compression operation
only through clap's `value_parser(1..=9)`: a parsed level is the argument's
own decimal value inside [1,9] (never clamped), an out-of-range or malformed
argument is a configuration error and no compression code runs — shown also
at the concrete out-of-range values 10 and 0. -/
theorem c8_level_validated (input : Option FsTree) (s : String) :
    (∀ l, parseLevelArg s = some l →
      (1 ≤ l ∧ l ≤ 9) ∧ parseDigits s.data 0 = some l) ∧
    (parseLevelArg s = none → mainCompress input s = .configError) ∧
    (∀ l, parseLevelArg s = some l →
      mainCompress input s = .ran (compressPath input l)) ∧
    mainCompress input "10" = .configError ∧
    mainCompress input "0" = .configError := by
  refine ⟨?_, ?_, ?_, ?_, ?_⟩
  · intro l hl
    unfold parseLevelArg at hl
    cases hs : s.data with
    | nil => rw [hs] at hl; cases hl
    | cons a as =>
      rw [hs] at hl
      have hl' : (match parseDigits (a :: as) 0 with
          | some n => if 1 ≤ n ∧ n ≤ 9 then some n else none
          | none => none) = some l := hl
      cases hd : parseDigits (a :: as) 0 with
      | none => rw [hd] at hl'; cases hl'
      | some n =>
        rw [hd] at hl'
        have hl2 : (if 1 ≤ n ∧ n ≤ 9 then some n else none) = some l := hl'
        by_cases hr : 1 ≤ n ∧ n ≤ 9
        · rw [if_pos hr] at hl2
          cases Option.some.inj hl2
          exact ⟨hr, rfl⟩
        · rw [if_neg hr] at hl2; cases hl2
  · intro hn
    unfold mainCompress
    rw [hn]
  · intro l hl
    unfold mainCompress
    rw [hl]
  · unfold mainCompress
    rw [show parseLevelArg "10" = none from by decide]
  · unfold mainCompress
    rw [show parseLevelArg "0" = none from by decide]

/-- C10 (confirmed): on every malformed compressed stream the decompression
invocation fails, yet the output artifact already exists: the destination
directory was created before any byte was decoded on the container branch,
and the output file was created (truncating) before the stream was read on
the plain branch. -/
theorem c10_artifact_on_error (input : String) (bytes : List Nat)
    (h : gzDecompress bytes = none) :
    (decompressFile input (some bytes)).ok = false ∧
    (decompressFile input (some bytes)).dirCreated = detectContainer input ∧
    (decompressFile input (some bytes)).fileCreated = !detectContainer input := by
  refine ⟨?_, (decompressFile_shape input bytes).1,
    (decompressFile_shape input bytes).2⟩
  unfold decompressFile
  cases hd : detectContainer input
  · simp [hd, h]
  · simp [hd, h]

/-- Witness for C10 at a concrete corrupt stream and a container name. -/
theorem c10_artifact_on_error_witness :
    gzDecompress [0] = none ∧
    ((decompressFile "x.tar.gz" (some [0])).ok = false ∧
      (decompressFile "x.tar.gz" (some [0])).dirCreated
        = detectContainer "x.tar.gz" ∧
      (decompressFile "x.tar.gz" (some [0])).fileCreated
        = !detectContainer "x.tar.gz") :=
  ⟨by decide, c10_artifact_on_error "x.tar.gz" [0] (by decide)⟩

end Rcomp
